import Mathlib

/-!
Verification development for the `lock_free` repository: a shallow
sequential embedding of the core concurrent containers and the
hazard-pointer reclamation engine, with theorems settling the spec's
claims about them.

Modelling conventions:
* `std::size_t` / `std::uint64_t` counters are modelled as `Nat`; no
  execution considered here approaches the 64-bit wraparound, so the
  `% 2^64` reduction is omitted (it would be the identity on every
  value that appears).
* `t & _MASK` with `_MASK = _CAPACITY - 1` and `_CAPACITY = 2 ^ pow`
  equals `t % _CAPACITY`; the embedding uses `%` directly.
* Operations of the concurrent containers are embedded as
  state-transforming functions describing one *completed* operation
  executed without interference (the claims under verification speak
  about sequences of completed operations / quiescent observations).
  A blocking operation whose spin condition does not hold cannot
  complete in such a context; this is expressed by a `*Guard`
  predicate (for the reachability relation) or an `Option`-valued
  result where `none` means the call does not complete.
* Raw uninitialised slot storage is modelled as `Option T`
  (`none` = storage without a live `T` object).
-/

namespace LockFree

/-! ## Ticket-counting helper (specification-side ghost function)

`countTick cap n i` counts the tickets `x < n` whose slot index
`x % cap` is `i`, i.e. how many of the first `n` tickets landed on
slot `i`.  It is the measure used to state the ring invariant. -/

def countTick (cap n i : Nat) : Nat :=
  (List.range n).countP (fun x => decide (x % cap = i))

theorem countTick_zero (cap i : Nat) : countTick cap 0 i = 0 := rfl

theorem countTick_succ (cap n i : Nat) :
    countTick cap (n + 1) i =
      countTick cap n i + (if n % cap = i then 1 else 0) := by
  unfold countTick
  rw [List.range_succ, List.countP_append]
  simp [List.countP_cons]

theorem countTick_le_of_le (cap i : Nat) {m n : Nat} (h : m ≤ n) :
    countTick cap m i ≤ countTick cap n i := by
  induction n with
  | zero => simp_all [countTick_zero, Nat.le_zero.mp h]
  | succ k ih =>
    rcases Nat.lt_or_ge m (k + 1) with hk | hk
    · calc countTick cap m i ≤ countTick cap k i := ih (Nat.lt_succ_iff.mp hk)
        _ ≤ countTick cap (k + 1) i := by
            rw [countTick_succ]; exact Nat.le_add_right _ _
    · have : m = k + 1 := Nat.le_antisymm h hk
      simp [this]

/-- Two numbers congruent modulo `cap` are at distance at least `cap`. -/
theorem cap_le_gap {cap a b : Nat} (hab : a < b) (h : a % cap = b % cap) :
    a + cap ≤ b := by
  have h0 : (b - a) % cap = 0 := Nat.sub_mod_eq_zero_of_mod_eq h.symm
  have hd : cap ∣ (b - a) := Nat.dvd_of_mod_eq_zero h0
  have := Nat.le_of_dvd (by omega) hd
  omega

/-- Characterisation: slot `i` has received at least `m + 1` of the
first `n` tickets iff its `m`-th ticket `i + m * cap` is below `n`. -/
theorem countTick_ge_iff (cap i : Nat) (hi : i < cap) :
    ∀ n m, m + 1 ≤ countTick cap n i ↔ i + m * cap < n := by
  intro n
  induction n with
  | zero => intro m; simp [countTick_zero]
  | succ k ih =>
    intro m
    rw [countTick_succ]
    by_cases hk : k % cap = i
    · rw [if_pos hk]
      cases m with
      | zero =>
        have hik : i ≤ k := hk ▸ Nat.mod_le k cap
        constructor
        · intro _; omega
        · intro _; have := countTick_zero cap i; omega
      | succ m' =>
        rw [show m' + 1 + 1 ≤ countTick cap k i + 1 ↔ m' + 1 ≤ countTick cap k i
              from by omega,
            ih m']
        constructor
        · intro h
          have hmod : (i + m' * cap) % cap = k % cap := by
            rw [Nat.add_mul_mod_self_right, Nat.mod_eq_of_lt hi, hk]
          have := cap_le_gap h hmod
          have hs : (m' + 1) * cap = m' * cap + cap := Nat.succ_mul m' cap
          omega
        · intro h
          have hs : (m' + 1) * cap = m' * cap + cap := Nat.succ_mul m' cap
          omega
    · rw [if_neg hk]
      have hih := ih m
      constructor
      · intro h; omega
      · intro h
        rw [show countTick cap k i + 0 = countTick cap k i from rfl, ih m]
        rcases Nat.lt_or_ge (i + m * cap) k with h' | h'
        · exact h'
        · exfalso
          apply hk
          have : i + m * cap = k := by omega
          rw [← this, Nat.add_mul_mod_self_right, Nat.mod_eq_of_lt hi]

theorem countTick_le_iff (cap n i m : Nat) (hi : i < cap) :
    countTick cap n i ≤ m ↔ n ≤ i + m * cap := by
  have := countTick_ge_iff cap i hi n m
  omega

/-- On its own slot index, ticket `n` is the `n / cap`-th visitor. -/
theorem countTick_self (cap n : Nat) (hcap : 0 < cap) :
    countTick cap n (n % cap) = n / cap := by
  have hdm := Nat.div_add_mod n cap
  have hlt : n % cap < cap := Nat.mod_lt n hcap
  have hmul : cap * (n / cap) = (n / cap) * cap := Nat.mul_comm _ _
  apply Nat.le_antisymm
  · rw [countTick_le_iff cap n (n % cap) (n / cap) hlt]
    omega
  · rcases Nat.eq_zero_or_pos (n / cap) with h0 | h1
    · omega
    · have := (countTick_ge_iff cap (n % cap) hlt n (n / cap - 1)).mpr
      have hs : (n / cap - 1 + 1) * cap = (n / cap - 1) * cap + cap :=
        Nat.succ_mul _ cap
      have hs2 : (n / cap - 1 + 1) = n / cap := by omega
      rw [hs2] at hs
      omega

/-! ## Ring ticket MPMC queue
(`src/Concurrent_Queue_LF_Ring_Ticket_MPMC.hpp`)

One `Slot` holds the slot's `_expected_ticket` and its raw storage
(`none` = no live object).  `QState` is the queue together with two
history variables `pushedL` / `poppedL` recording the values supplied
to completed pushes and returned by completed pops; they are
specification ghosts, not container fields. -/

structure QSlot (T : Type) where
  exp : Nat
  data : Option T
deriving DecidableEq

instance {T : Type} : Inhabited (QSlot T) := ⟨⟨0, none⟩⟩

structure QState (T : Type) where
  head : Nat
  tail : Nat
  slots : List (QSlot T)
  pushedL : List T
  poppedL : List T
deriving DecidableEq

namespace QState

variable {T : Type}

/-- `_CAPACITY`: the length of the `_slots` array. -/
def qcap (s : QState T) : Nat := s.slots.length

/-- `ticket & _MASK` with `_MASK = _CAPACITY - 1`; as `_CAPACITY` is a
power of two this is `ticket % _CAPACITY`. -/
def slotIdx (s : QState T) (t : Nat) : Nat := t % s.qcap

def expAt (s : QState T) (i : Nat) : Nat := (s.slots.getD i default).exp

def dataAt (s : QState T) (i : Nat) : Option T := (s.slots.getD i default).data

/-- Constructor: `head = tail = 0`, slot `i` expects ticket `i`. -/
def qinit (T : Type) (cap : Nat) : QState T :=
  { head := 0, tail := 0,
    slots := (List.range cap).map fun i => ⟨i, none⟩,
    pushedL := [], poppedL := [] }

/-- Spin condition of `push` step 2 at reservation: the slot of the
reserved producer ticket (`= _tail`) expects exactly that ticket.  A
blocking `push` executed without interference completes iff this
holds. -/
def qpushGuard (s : QState T) : Prop :=
  s.expAt (s.slotIdx s.tail) = s.tail

instance (s : QState T) : Decidable s.qpushGuard := by
  unfold qpushGuard; infer_instance

/-- Effect of a completed `push(data)`: steps 1,3,4 of the source
(fetch-add `_tail`, construct in place, publish `expected_ticket =
producer_ticket + 1`). -/
def qpushApply (v : T) (s : QState T) : QState T :=
  let t := s.tail
  let i := s.slotIdx t
  { s with
    tail := t + 1,
    slots := s.slots.set i ⟨t + 1, some v⟩,
    pushedL := s.pushedL ++ [v] }

/-- Spin condition of `pop` step 2: the slot of the reserved consumer
ticket (`= _head`) expects `consumer_ticket + 1` (FULL). -/
def qpopGuard (s : QState T) : Prop :=
  s.expAt (s.slotIdx s.head) = s.head + 1

instance (s : QState T) : Decidable s.qpopGuard := by
  unfold qpopGuard; infer_instance

/-- Effect of a completed `pop()`: fetch-add `_head`, move the data
out (storage becomes dead) and republish `expected_ticket =
consumer_ticket + _CAPACITY`. -/
def qpopApply (s : QState T) : QState T :=
  let c := s.head
  let i := s.slotIdx c
  { s with
    head := c + 1,
    slots := s.slots.set i ⟨c + s.qcap, none⟩,
    poppedL := s.poppedL ++ (s.dataAt i).toList }

/-- A completed `pop()` with its return value (`none` = the call spins
forever and never completes). -/
def qpopComplete? (s : QState T) : Option (Option T × QState T) :=
  if s.qpopGuard then some (s.dataAt (s.slotIdx s.head), s.qpopApply) else none

/-- `try_push`: load `_tail`; if the slot does not expect that ticket
return `false` leaving the queue untouched; otherwise the CAS on
`_tail` succeeds (no interference) and the push is performed. -/
def qtryPush (v : T) (s : QState T) : Bool × QState T :=
  if s.expAt (s.slotIdx s.tail) = s.tail then (true, s.qpushApply v)
  else (false, s)

/-- `try_pop`: load `_head`; fail with `nullopt` if `_head = _tail`
or the slot is not FULL for this consumer ticket; otherwise the CAS on
`_head` succeeds and the pop is performed. -/
def qtryPop (s : QState T) : Option T × QState T :=
  if s.head = s.tail then (none, s)
  else if s.expAt (s.slotIdx s.head) = s.head + 1 then
    (s.dataAt (s.slotIdx s.head), s.qpopApply)
  else (none, s)

/-- `empty()` of the ticket MPMC queue: pure comparison of the two
counters. -/
def qempty (s : QState T) : Bool := s.head == s.tail

end QState

open QState

/-- States reachable from a fresh queue (capacity `2 ^ p` for the
`Capacity_As_Pow2` template parameter) by completed `push`, `pop`,
`try_push` and `try_pop` operations. -/
inductive QReach {T : Type} : QState T → Prop
  | init (p : Nat) : QReach (qinit T (2 ^ p))
  | push (v : T) {s : QState T} :
      QReach s → s.qpushGuard → QReach (s.qpushApply v)
  | pop {s : QState T} :
      QReach s → s.qpopGuard → QReach s.qpopApply
  | tryPush (v : T) {s : QState T} :
      QReach s → QReach (s.qtryPush v).2
  | tryPop {s : QState T} :
      QReach s → QReach s.qtryPop.2

/-! ### List access helpers -/

theorem getD_set_self {α} [Inhabited α] (l : List α) {i : Nat} (a : α)
    (h : i < l.length) : (l.set i a).getD i default = a := by
  simp [List.getD_eq_getElem?_getD, List.getElem?_set_self, h]

theorem getD_set_ne {α} [Inhabited α] (l : List α) {i j : Nat} (a : α)
    (h : j ≠ i) : (l.set i a).getD j default = l.getD j default := by
  simp [List.getD_eq_getElem?_getD, List.getElem?_set_ne (Ne.symm h)]

/-! ### The ring invariant

For slot `i`, write `K = countTick cap head i` (number of pops that
have consumed slot `i`) and `P = countTick cap tail i` (number of
pushes that have filled it).  A *clean* slot alternates between EMPTY
(`P = K`, `expected = i + K·cap`, the next producer ticket for this
slot) and FULL (`P = K + 1`, `expected = (last producer ticket) + 1 =
i + K·cap + 1`, holding the value pushed with ticket `i + K·cap`).
With capacity 1 the FULL expected ticket coincides with the *next*
producer ticket, so a blocking push can complete on a FULL slot; from
then on the unique slot stays in an *overrun* mode where its expected
ticket always equals `tail`. -/

namespace QState

variable {T : Type}

def SlotClean (s : QState T) (i : Nat) : Prop :=
  countTick s.qcap s.tail i ≤ countTick s.qcap s.head i + 1 ∧
  s.expAt i = i + countTick s.qcap s.head i * s.qcap +
      (if countTick s.qcap s.tail i = countTick s.qcap s.head i + 1
       then 1 else 0) ∧
  (countTick s.qcap s.tail i = countTick s.qcap s.head i + 1 →
    s.dataAt i = s.pushedL[i + countTick s.qcap s.head i * s.qcap]?)

def SlotOver (s : QState T) (i : Nat) : Prop :=
  s.qcap = 1 ∧
  countTick s.qcap s.head i + 2 ≤ countTick s.qcap s.tail i ∧
  s.expAt i = s.tail

def QInv (s : QState T) : Prop :=
  0 < s.qcap ∧
  s.head ≤ s.tail ∧
  s.pushedL.length = s.tail ∧
  s.poppedL = s.pushedL.take s.head ∧
  ∀ i, i < s.qcap → (s.SlotClean i ∨ s.SlotOver i)

theorem qinit_inv (cap : Nat) (hcap : 0 < cap) : (qinit T cap).QInv := by
  have hq : (qinit T cap).qcap = cap := by simp [qinit, qcap]
  refine ⟨by omega, Nat.le_refl _, rfl, rfl, ?_⟩
  intro i hi
  left
  have hexp : (qinit T cap).expAt i = i := by
    rw [hq] at hi
    simp [qinit, expAt, List.getD_eq_getElem?_getD, List.getElem?_map,
      List.getElem?_range, hi]
  have htl : (qinit T cap).tail = 0 := rfl
  have hhd : (qinit T cap).head = 0 := rfl
  refine ⟨?_, ?_, ?_⟩
  · rw [htl, countTick_zero]; omega
  · rw [htl, hhd, countTick_zero]
    simpa using hexp
  · rw [htl, hhd, countTick_zero]
    intro h; omega

theorem qpush_inv {s : QState T} (hInv : s.QInv) (hg : s.qpushGuard) (v : T) :
    (s.qpushApply v).QInv := by
  obtain ⟨hcap, hht, hlen, hpop, hslots⟩ := hInv
  have hlenslots : s.slots.length = s.qcap := rfl
  have hi0lt : s.tail % s.qcap < s.qcap := Nat.mod_lt _ hcap
  -- the updated state, field by field
  have hcap' : (s.qpushApply v).qcap = s.qcap := by
    simp [qpushApply, qcap]
  have hhd' : (s.qpushApply v).head = s.head := rfl
  have htl' : (s.qpushApply v).tail = s.tail + 1 := rfl
  have hpL' : (s.qpushApply v).pushedL = s.pushedL ++ [v] := rfl
  have hoL' : (s.qpushApply v).poppedL = s.poppedL := rfl
  have hexp' : ∀ j, (s.qpushApply v).expAt j =
      if j = s.tail % s.qcap then s.tail + 1 else s.expAt j := by
    intro j
    by_cases hji : j = s.tail % s.qcap
    · rw [if_pos hji, hji]
      show ((s.slots.set (s.slotIdx s.tail) _).getD (s.tail % s.qcap)
        default).exp = _
      rw [show s.slotIdx s.tail = s.tail % s.qcap from rfl,
        getD_set_self s.slots _ (hlenslots ▸ hi0lt)]
    · rw [if_neg hji]
      show ((s.slots.set (s.slotIdx s.tail) _).getD j default).exp = _
      rw [show s.slotIdx s.tail = s.tail % s.qcap from rfl,
        getD_set_ne s.slots _ hji]
      rfl
  have hdat' : ∀ j, (s.qpushApply v).dataAt j =
      if j = s.tail % s.qcap then some v else s.dataAt j := by
    intro j
    by_cases hji : j = s.tail % s.qcap
    · rw [if_pos hji, hji]
      show ((s.slots.set (s.slotIdx s.tail) _).getD (s.tail % s.qcap)
        default).data = _
      rw [show s.slotIdx s.tail = s.tail % s.qcap from rfl,
        getD_set_self s.slots _ (hlenslots ▸ hi0lt)]
    · rw [if_neg hji]
      show ((s.slots.set (s.slotIdx s.tail) _).getD j default).data = _
      rw [show s.slotIdx s.tail = s.tail % s.qcap from rfl,
        getD_set_ne s.slots _ hji]
      rfl
  -- ticket arithmetic for the reserved ticket
  have hP : countTick s.qcap s.tail (s.tail % s.qcap) = s.tail / s.qcap :=
    countTick_self s.qcap s.tail hcap
  have htEq : s.tail = s.tail % s.qcap + s.tail / s.qcap * s.qcap := by
    have h1 := Nat.div_add_mod s.tail s.qcap
    have h2 : s.qcap * (s.tail / s.qcap) = s.tail / s.qcap * s.qcap :=
      Nat.mul_comm _ _
    omega
  -- the guard: the reserved slot expects exactly ticket tail
  have hguard : s.expAt (s.tail % s.qcap) = s.tail := hg
  have hcnt_tl : ∀ i, countTick s.qcap (s.tail + 1) i =
      countTick s.qcap s.tail i +
        (if s.tail % s.qcap = i then 1 else 0) := fun i =>
    countTick_succ s.qcap s.tail i
  refine ⟨by omega, by omega, ?_, ?_, ?_⟩
  · rw [htl', hpL', List.length_append, hlen]; rfl
  · rw [hoL', hpop, hhd', hpL', List.take_append_of_le_length (by omega)]
  · -- per-slot invariant
    intro j hj
    rw [hcap'] at hj
    by_cases hji : j = s.tail % s.qcap
    · -- the slot that received the push
      subst hji
      rcases hslots _ hj with hclean | hover
      · obtain ⟨hle, hexp, hdata⟩ := hclean
        rw [hguard] at hexp
        by_cases hfull : countTick s.qcap s.tail (s.tail % s.qcap) =
            countTick s.qcap s.head (s.tail % s.qcap) + 1
        · -- pushing onto a FULL slot: only possible at capacity 1
          rw [if_pos hfull] at hexp
          have hsm : (countTick s.qcap s.head (s.tail % s.qcap) + 1) * s.qcap =
              countTick s.qcap s.head (s.tail % s.qcap) * s.qcap + s.qcap :=
            Nat.succ_mul _ _
          have hcap1 : s.qcap = 1 := by
            rw [hfull] at hP
            rw [← hP, hsm] at htEq
            omega
          right
          refine ⟨by rw [hcap']; exact hcap1, ?_, ?_⟩
          · rw [hcap', htl', hhd', hcnt_tl, if_pos rfl]
            omega
          · rw [hexp' _, if_pos rfl, htl']
        · -- pushing onto an EMPTY slot: the regular case
          rw [if_neg hfull] at hexp
          have hKP : s.tail / s.qcap =
              countTick s.qcap s.head (s.tail % s.qcap) := by
            have hmul : s.tail / s.qcap * s.qcap =
                countTick s.qcap s.head (s.tail % s.qcap) * s.qcap := by omega
            exact Nat.eq_of_mul_eq_mul_right hcap hmul
          left
          refine ⟨?_, ?_, ?_⟩
          · rw [hcap', htl', hhd', hcnt_tl, if_pos rfl]
            omega
          · rw [hcap', htl', hhd', hexp' _, if_pos rfl, hcnt_tl, if_pos rfl,
              if_pos (by omega)]
            omega
          · intro _
            rw [hcap', hhd', hdat' _, if_pos rfl, hpL']
            have hidx : s.tail % s.qcap +
                countTick s.qcap s.head (s.tail % s.qcap) * s.qcap =
                s.pushedL.length := by rw [hlen]; omega
            rw [hidx, List.getElem?_concat_length]
      · -- overrun slot stays overrun
        obtain ⟨hcap1, hge, hexpov⟩ := hover
        right
        refine ⟨by rw [hcap']; exact hcap1, ?_, ?_⟩
        · rw [hcap', htl', hhd', hcnt_tl, if_pos rfl]
          omega
        · rw [hexp' _, if_pos rfl, htl']
    · -- all other slots are untouched
      rcases hslots _ hj with hclean | hover
      · obtain ⟨hle, hexp, hdata⟩ := hclean
        left
        have hcnt : countTick s.qcap (s.tail + 1) j =
            countTick s.qcap s.tail j := by
          rw [hcnt_tl, if_neg (fun h => hji h.symm)]
          omega
        refine ⟨?_, ?_, ?_⟩
        · rw [hcap', htl', hhd', hcnt]; exact hle
        · rw [hcap', htl', hhd', hcnt, hexp' _, if_neg hji]; exact hexp
        · intro hfull
          rw [hcap', htl', hhd', hcnt] at hfull
          rw [hcap', hhd', hdat' _, if_neg hji, hpL']
          have hidxlt : j + countTick s.qcap s.head j * s.qcap <
              s.pushedL.length := by
            rw [hlen]
            exact (countTick_ge_iff s.qcap j hj s.tail
              (countTick s.qcap s.head j)).mp (by omega)
          rw [List.getElem?_append_left hidxlt]
          exact hdata hfull
      · -- at capacity 1 the unique slot is the pushed slot
        exfalso
        obtain ⟨hcap1, _, _⟩ := hover
        omega

theorem qpop_inv {s : QState T} (hInv : s.QInv) (hg : s.qpopGuard) :
    s.qpopApply.QInv := by
  obtain ⟨hcap, hht, hlen, hpop, hslots⟩ := hInv
  have hlenslots : s.slots.length = s.qcap := rfl
  have hi0lt : s.head % s.qcap < s.qcap := Nat.mod_lt _ hcap
  have hcap' : s.qpopApply.qcap = s.qcap := by
    simp [qpopApply, qcap]
  have hhd' : s.qpopApply.head = s.head + 1 := rfl
  have htl' : s.qpopApply.tail = s.tail := rfl
  have hpL' : s.qpopApply.pushedL = s.pushedL := rfl
  have hoL' : s.qpopApply.poppedL =
      s.poppedL ++ (s.dataAt (s.head % s.qcap)).toList := rfl
  have hexp' : ∀ j, s.qpopApply.expAt j =
      if j = s.head % s.qcap then s.head + s.qcap else s.expAt j := by
    intro j
    by_cases hji : j = s.head % s.qcap
    · rw [if_pos hji, hji]
      show ((s.slots.set (s.slotIdx s.head) _).getD (s.head % s.qcap)
        default).exp = _
      rw [show s.slotIdx s.head = s.head % s.qcap from rfl,
        getD_set_self s.slots _ (hlenslots ▸ hi0lt)]
    · rw [if_neg hji]
      show ((s.slots.set (s.slotIdx s.head) _).getD j default).exp = _
      rw [show s.slotIdx s.head = s.head % s.qcap from rfl,
        getD_set_ne s.slots _ hji]
      rfl
  have hdat' : ∀ j, s.qpopApply.dataAt j =
      if j = s.head % s.qcap then none else s.dataAt j := by
    intro j
    by_cases hji : j = s.head % s.qcap
    · rw [if_pos hji, hji]
      show ((s.slots.set (s.slotIdx s.head) _).getD (s.head % s.qcap)
        default).data = _
      rw [show s.slotIdx s.head = s.head % s.qcap from rfl,
        getD_set_self s.slots _ (hlenslots ▸ hi0lt)]
    · rw [if_neg hji]
      show ((s.slots.set (s.slotIdx s.head) _).getD j default).data = _
      rw [show s.slotIdx s.head = s.head % s.qcap from rfl,
        getD_set_ne s.slots _ hji]
      rfl
  have hK : countTick s.qcap s.head (s.head % s.qcap) = s.head / s.qcap :=
    countTick_self s.qcap s.head hcap
  have hcEq : s.head = s.head % s.qcap + s.head / s.qcap * s.qcap := by
    have h1 := Nat.div_add_mod s.head s.qcap
    have h2 : s.qcap * (s.head / s.qcap) = s.head / s.qcap * s.qcap :=
      Nat.mul_comm _ _
    omega
  have hguard : s.expAt (s.head % s.qcap) = s.head + 1 := hg
  have hcnt_hd : ∀ i, countTick s.qcap (s.head + 1) i =
      countTick s.qcap s.head i +
        (if s.head % s.qcap = i then 1 else 0) := fun i =>
    countTick_succ s.qcap s.head i
  -- the reserved slot must be clean and FULL
  have hfull : countTick s.qcap s.tail (s.head % s.qcap) =
      s.head / s.qcap + 1 := by
    rcases hslots _ hi0lt with hclean | hover
    · obtain ⟨hle, hexp, hdata⟩ := hclean
      rw [hguard, hK] at hexp
      by_cases hb : countTick s.qcap s.tail (s.head % s.qcap) =
          s.head / s.qcap + 1
      · exact hb
      · rw [if_neg hb] at hexp
        omega
    · obtain ⟨hcap1, hge, hexpov⟩ := hover
      rw [hguard] at hexpov
      rw [← hexpov, hcnt_hd, if_pos rfl] at hge
      omega
  have hdata0 : s.dataAt (s.head % s.qcap) = s.pushedL[s.head]? := by
    rcases hslots _ hi0lt with hclean | hover
    · obtain ⟨hle, hexp, hdata⟩ := hclean
      rw [hK] at hdata
      have := hdata hfull
      rw [this]
      congr 1
      omega
    · obtain ⟨hcap1, hge, hexpov⟩ := hover
      rw [hguard] at hexpov
      rw [← hexpov, hcnt_hd, if_pos rfl] at hge
      omega
  have hlt_tail : s.head < s.tail := by
    have := (countTick_ge_iff s.qcap (s.head % s.qcap) hi0lt s.tail
      (s.head / s.qcap)).mp (by omega)
    omega
  refine ⟨by omega, by omega, by rw [htl', hpL']; exact hlen, ?_, ?_⟩
  · rw [hoL', hpL', hhd', hpop, hdata0, List.take_succ]
  · intro j hj
    rw [hcap'] at hj
    by_cases hji : j = s.head % s.qcap
    · -- the consumed slot becomes EMPTY for the next cycle
      subst hji
      left
      have hsm : (s.head / s.qcap + 1) * s.qcap =
          s.head / s.qcap * s.qcap + s.qcap := Nat.succ_mul _ _
      refine ⟨?_, ?_, ?_⟩
      · rw [hcap', htl', hhd', hcnt_hd, if_pos rfl]
        omega
      · rw [hcap', htl', hhd', hexp' _, if_pos rfl, hcnt_hd, if_pos rfl,
          hK, if_neg (by omega), hsm]
        omega
      · intro hcond
        rw [hcap', htl', hhd', hcnt_hd, if_pos rfl, hK, hfull] at hcond
        omega
    · -- all other slots untouched
      rcases hslots _ hj with hclean | hover
      · obtain ⟨hle, hexp, hdata⟩ := hclean
        left
        have hcnt : countTick s.qcap (s.head + 1) j =
            countTick s.qcap s.head j := by
          rw [hcnt_hd, if_neg (fun h => hji h.symm)]
          omega
        refine ⟨?_, ?_, ?_⟩
        · rw [hcap', htl', hhd', hcnt]; exact hle
        · rw [hcap', htl', hhd', hcnt, hexp' _, if_neg hji]; exact hexp
        · intro hcond
          rw [hcap', htl', hhd', hcnt] at hcond
          rw [hcap', hhd', hcnt, hdat' _, if_neg hji, hpL']
          exact hdata hcond
      · exfalso
        obtain ⟨hcap1, _, _⟩ := hover
        omega

/-- `try_push` preserves the invariant (both the failing and the
succeeding branch). -/
theorem qtryPush_inv {s : QState T} (hInv : s.QInv) (v : T) :
    (s.qtryPush v).2.QInv := by
  unfold qtryPush
  split
  · exact qpush_inv hInv (by assumption) v
  · exact hInv

/-- `try_pop` preserves the invariant. -/
theorem qtryPop_inv {s : QState T} (hInv : s.QInv) : s.qtryPop.2.QInv := by
  unfold qtryPop
  split
  · exact hInv
  · split
    · exact qpop_inv hInv (by assumption)
    · exact hInv

end QState

/-- Every reachable queue state satisfies the ring invariant. -/
theorem qreach_inv {T : Type} {s : QState T} (h : QReach s) : s.QInv := by
  induction h with
  | init p => exact QState.qinit_inv (2 ^ p) (Nat.pos_pow_of_pos p (by omega))
  | push v hs hg ih => exact QState.qpush_inv ih hg v
  | pop hs hg ih => exact QState.qpop_inv ih hg
  | tryPush v hs ih => exact QState.qtryPush_inv ih v
  | tryPop hs ih => exact QState.qtryPop_inv ih

/-! ## Claim C1 and Claim C8 -/

open QState in
/-- Claim C1: for any single ring MPMC ticket queue, over every sequence
of completed push/pop/try_push/try_pop operations from a fresh
container, the multiset of values returned by successful pops is
contained in the multiset of values supplied to successful pushes, and
once the queue is drained (`head = tail`) the two multisets are equal:
no popped value is duplicated and no popped value is fabricated. -/
theorem claim_C1_ticket_queue_pops_subset_pushes {T : Type} (s : QState T)
    (h : QReach s) :
    ((s.poppedL : Multiset T) ≤ (s.pushedL : Multiset T)) ∧
    (s.head = s.tail →
      (s.poppedL : Multiset T) = (s.pushedL : Multiset T)) := by
  obtain ⟨hcap, hht, hlen, hpop, _⟩ := qreach_inv h
  constructor
  · rw [hpop]
    have hsplit : s.pushedL = s.pushedL.take s.head ++ s.pushedL.drop s.head :=
      (List.take_append_drop _ _).symm
    calc ((s.pushedL.take s.head : List T) : Multiset T)
        ≤ ((s.pushedL.take s.head : List T) : Multiset T) +
          ((s.pushedL.drop s.head : List T) : Multiset T) :=
          Multiset.le_add_right _ _
      _ = ((s.pushedL.take s.head ++ s.pushedL.drop s.head : List T) :
          Multiset T) := by exact_mod_cast rfl
      _ = (s.pushedL : Multiset T) := by rw [← hsplit]
  · intro he
    rw [hpop, he, ← hlen, List.take_length]

open QState in
/-- Witness for claim C1 at a concrete execution: capacity 2, one
completed push of 5 followed by one completed pop. -/
theorem claim_C1_witness :
    ((((qinit Nat (2 ^ 1)).qpushApply 5).qpopApply.poppedL : Multiset Nat) ≤
      (((qinit Nat (2 ^ 1)).qpushApply 5).qpopApply.pushedL : Multiset Nat)) ∧
    (((qinit Nat (2 ^ 1)).qpushApply 5).qpopApply.head =
        ((qinit Nat (2 ^ 1)).qpushApply 5).qpopApply.tail →
      (((qinit Nat (2 ^ 1)).qpushApply 5).qpopApply.poppedL : Multiset Nat) =
      (((qinit Nat (2 ^ 1)).qpushApply 5).qpopApply.pushedL : Multiset Nat)) :=
  claim_C1_ticket_queue_pops_subset_pushes _
    (QReach.pop (QReach.push 5 (QReach.init 1) (by decide)) (by decide))

open QState in
/-- Claim C8 counterexample: with `Capacity_As_Pow2 = 0`
(capacity `2 ^ 0 = 1`) the state reached by two completed blocking
pushes from a fresh queue has `tail - head = 2 > 1 = capacity`: the
second push's spin condition `expected_ticket == producer_ticket`
already holds on the FULL slot, so the push completes and overruns the
bound claimed for every reachable state. -/
theorem claim_C8_counterexample :
    QReach (((qinit Nat (2 ^ 0)).qpushApply 10).qpushApply 11) ∧
    ¬((((qinit Nat (2 ^ 0)).qpushApply 10).qpushApply 11).tail -
        (((qinit Nat (2 ^ 0)).qpushApply 10).qpushApply 11).head ≤
      (((qinit Nat (2 ^ 0)).qpushApply 10).qpushApply 11).qcap) :=
  ⟨QReach.push 11 (QReach.push 10 (QReach.init 0) (by decide)) (by decide),
    by decide⟩

open QState in
/-- Claim C8 (amended): for every capacity `2 ^ p` with `p ≥ 1`, every
state reachable from the fresh ticket MPMC queue by completed push,
pop, try_push and try_pop operations satisfies
`0 ≤ tail - head ≤ capacity`; at capacity 1 the bound fails (see the
counterexample). -/
theorem claim_C8_capacity_bound {T : Type} (p : Nat) (s : QState T)
    (hp : 1 ≤ p) (hcap2 : s.qcap = 2 ^ p) (h : QReach s) :
    s.head ≤ s.tail ∧ s.tail ≤ s.head + s.qcap := by
  obtain ⟨hcap, hht, hlen, hpop, hslots⟩ := qreach_inv h
  refine ⟨hht, ?_⟩
  have hi0lt : s.head % s.qcap < s.qcap := Nat.mod_lt _ hcap
  have hK : countTick s.qcap s.head (s.head % s.qcap) = s.head / s.qcap :=
    countTick_self s.qcap s.head hcap
  have hcEq : s.head = s.head % s.qcap + s.head / s.qcap * s.qcap := by
    have h1 := Nat.div_add_mod s.head s.qcap
    have h2 : s.qcap * (s.head / s.qcap) = s.head / s.qcap * s.qcap :=
      Nat.mul_comm _ _
    omega
  have hcapge2 : 2 ≤ s.qcap := by
    rw [hcap2]
    calc 2 = 2 ^ 1 := by omega
      _ ≤ 2 ^ p := Nat.pow_le_pow_right (by omega) hp
  rcases hslots _ hi0lt with hclean | hover
  · obtain ⟨hle, _, _⟩ := hclean
    rw [hK] at hle
    have := (countTick_le_iff s.qcap s.tail (s.head % s.qcap)
      (s.head / s.qcap + 1) hi0lt).mp hle
    have hsm : (s.head / s.qcap + 1) * s.qcap =
        s.head / s.qcap * s.qcap + s.qcap := Nat.succ_mul _ _
    omega
  · obtain ⟨hcap1, _, _⟩ := hover
    omega

open QState in
/-- Witness for the amended claim C8: capacity `2 ^ 1`, after one
completed push the counters satisfy the bound. -/
theorem claim_C8_witness :
    1 ≤ 1 ∧ ((qinit Nat (2 ^ 1)).qpushApply 7).qcap = 2 ^ 1 ∧
    (((qinit Nat (2 ^ 1)).qpushApply 7).head ≤
        ((qinit Nat (2 ^ 1)).qpushApply 7).tail ∧
      ((qinit Nat (2 ^ 1)).qpushApply 7).tail ≤
        ((qinit Nat (2 ^ 1)).qpushApply 7).head +
          ((qinit Nat (2 ^ 1)).qpushApply 7).qcap) :=
  ⟨by decide, by decide,
    claim_C8_capacity_bound 1 _ (by decide) (by decide)
      (QReach.push 7 (QReach.init 1) (by decide))⟩

/-! ## Ring ticket MPMC stack
(`src/Concurrent_Stack_LF_Ring_Ticket_MPMC.hpp`)

Single monotonic-while-pushing counter `_top`; `pop` CAS-decrements
it.  Slots are as in the queue. -/

structure SState (T : Type) where
  top : Nat
  slots : List (QSlot T)
deriving DecidableEq

namespace SState

variable {T : Type}

def scap (s : SState T) : Nat := s.slots.length

def expAt (s : SState T) (i : Nat) : Nat := (s.slots.getD i default).exp

def dataAt (s : SState T) (i : Nat) : Option T := (s.slots.getD i default).data

/-- Constructor: `top = 0`, slot `i` expects ticket `i`. -/
def sinit (T : Type) (cap : Nat) : SState T :=
  { top := 0, slots := (List.range cap).map fun i => ⟨i, none⟩ }

/-- Spin condition of the blocking `push` at reservation time: the
slot of the reserved `top_ticket` (`= _top`) expects that ticket. -/
def spushGuard (s : SState T) : Prop :=
  s.expAt (s.top % s.scap) = s.top

instance (s : SState T) : Decidable s.spushGuard := by
  unfold spushGuard; infer_instance

/-- Effect of a completed blocking `push(data)`: fetch-add `_top`,
construct in place, publish `expected_ticket = top_ticket + 1`. -/
def spushApply (v : T) (s : SState T) : SState T :=
  let t := s.top
  let i := t % s.scap
  { top := t + 1, slots := s.slots.set i ⟨t + 1, some v⟩ }

/-- A completed blocking `pop()` with its return value.  `pop` returns
`nullopt` immediately when it observes `_top == 0`; otherwise it
CAS-claims `top_ticket = old_top - 1` and spins until the slot's
`expected_ticket == top_ticket + 1`; `none` means the spin never ends
(the call does not complete). -/
def spopComplete? (s : SState T) : Option (Option T × SState T) :=
  if s.top = 0 then some (none, s)
  else
    let ticket := s.top - 1
    let i := ticket % s.scap
    if s.expAt i = ticket + 1 then
      some (s.dataAt i,
        { top := ticket, slots := s.slots.set i ⟨ticket + s.scap, none⟩ })
    else none

/-- `try_push`: reserves a ticket via fetch-add on `_top`
*unconditionally*, then returns `false` if the slot is not EMPTY for
that ticket — the increment of `_top` is not undone on failure. -/
def stryPush (v : T) (s : SState T) : Bool × SState T :=
  let t := s.top
  let i := t % s.scap
  if s.expAt i ≠ t then (false, { s with top := t + 1 })
  else (true, { top := t + 1, slots := s.slots.set i ⟨t + 1, some v⟩ })

/-- `try_pop`: also reserves a ticket via fetch-add on `_top`
(incrementing it), then returns `nullopt` if the slot's expected
ticket is not `top_ticket + 1` — again without undoing the
increment. -/
def stryPop (s : SState T) : Option T × SState T :=
  let t := s.top
  let i := t % s.scap
  if s.expAt i ≠ t + 1 then (none, { s with top := t + 1 })
  else (s.dataAt i,
    { top := t + 1, slots := s.slots.set i ⟨t + s.scap, none⟩ })

end SState

/-! ## Ring SPSC queue (`src/Concurrent_Queue_LF_Ring_SPSC.hpp`)

Plain (non-atomic) `_head` / `_tail` counters over the same slot
protocol. -/

structure SpscState (T : Type) where
  head : Nat
  tail : Nat
  slots : List (QSlot T)
deriving DecidableEq

namespace SpscState

variable {T : Type}

def cap (s : SpscState T) : Nat := s.slots.length

def expAt (s : SpscState T) (i : Nat) : Nat := (s.slots.getD i default).exp

def spscInit (T : Type) (c : Nat) : SpscState T :=
  { head := 0, tail := 0, slots := (List.range c).map fun i => ⟨i, none⟩ }

/-- Spin condition of the SPSC blocking `push`: the slot of `_tail`
expects ticket `_tail`. -/
def spscPushGuard (s : SpscState T) : Prop :=
  s.expAt (s.tail % s.cap) = s.tail

instance (s : SpscState T) : Decidable s.spscPushGuard := by
  unfold spscPushGuard; infer_instance

/-- Effect of a completed SPSC `push(data)`: construct in place,
publish `expected_ticket = _tail + 1`, then `++_tail`. -/
def spscPushApply (v : T) (s : SpscState T) : SpscState T :=
  let i := s.tail % s.cap
  { s with
    tail := s.tail + 1,
    slots := s.slots.set i ⟨s.tail + 1, some v⟩ }

/-- `empty()` exactly as written in the source: `return _head = _tail;`
assigns `_tail` to `_head` and returns the assigned value converted to
`bool`, i.e. `true` iff `_tail ≠ 0`. -/
def spscEmptyAsWritten (s : SpscState T) : Bool × SpscState T :=
  (s.tail != 0, { s with head := s.tail })

/-- `empty()` as the spec describes it: compare the two counters,
modify nothing.  (This is also what the ticket MPMC queue's `empty()`
does.) -/
def spscEmptySpec (s : SpscState T) : Bool := s.head == s.tail

end SpscState

/-! ## Hazard-protected linked MPMC stack
(`src/Concurrent_Stack_LF_Linked_Hazard_MPMC.hpp`)

The chain of nodes hanging off `_head` is abstracted as the list of
their `_data` values (head of the list = `_head` node); `retired`
collects the values of the nodes handed to
`reclaim_memory_later`. -/

structure LinkedStack (T : Type) where
  heads : List T
  retired : List T
deriving DecidableEq

namespace LinkedStack

variable {T : Type}

/-- `push`: allocate a node, link it in front of `_head` by CAS. -/
def lpush (v : T) (s : LinkedStack T) : LinkedStack T :=
  { s with heads := v :: s.heads }

/-- `pop()` exactly as written in the source.  If `_head` is null the
CAS loop exits with `old_head == nullptr` and the function returns the
outer `data` (`nullopt`).  Otherwise the head node is unlinked and
retired; however the value moved out of the node initialises a *new*
`std::optional<T> data` declared inside the `if (old_head)` block,
which shadows the outer `data` — the function still returns the outer
`data`, i.e. `nullopt`, and the moved value is discarded. -/
def lpopAsWritten (s : LinkedStack T) : Option T × LinkedStack T :=
  match s.heads with
  | [] => (none, s)
  | v :: rest =>
    -- old head unlinked and handed to reclaim_memory_later; the moved
    -- value initialises the shadowing inner variable and is dropped
    (none, { heads := rest, retired := s.retired ++ [v] })

/-- `empty()`: `_head == nullptr`. -/
def lempty (s : LinkedStack T) : Bool := s.heads.isEmpty

end LinkedStack

/-! ## Hazard-pointer registry (`src/Hazard_Ptr.hpp`)

A `Hazard_Ptr_Record` holds an atomic owner thread id (modelled as
`Option Nat`, `none` = default-constructed "unowned" id) and an atomic
erased pointer (`Option Nat`, `none` = `nullptr`).  The registry
`HAZARD_PTR_RECORDS` is a fixed array, modelled as a list. -/

structure Hazard_Ptr_Record where
  owner : Option Nat
  ptr : Option Nat
deriving DecidableEq

instance : Inhabited Hazard_Ptr_Record := ⟨⟨none, none⟩⟩

/-- `std::find_if` scan of `acquire_hazard_ptr_record`: index of the
first record already owned by the calling thread. -/
def findOwnedIdx (tid : Nat) : List Hazard_Ptr_Record → Option Nat
  | [] => none
  | r :: rs =>
    if r.owner = some tid then some 0
    else (findOwnedIdx tid rs).map (· + 1)

/-- Second scan of `acquire_hazard_ptr_record`, exactly as written:
`empty_tid` is declared once before the loop and passed to
`compare_exchange_strong`, which on failure *overwrites* it with the
record's current owner.  `expected` is that comparand, threaded
through the iterations: record `r` is claimed iff `r.owner` equals
the comparand left by the previous iteration (the default id only for
the first record), not iff `r` is unowned. -/
def claimScanCAS (tid : Nat) (expected : Option Nat) :
    List Hazard_Ptr_Record → Option (Nat × List Hazard_Ptr_Record)
  | [] => none
  | r :: rs =>
    if r.owner = expected then some (0, { r with owner := some tid } :: rs)
    else (claimScanCAS tid r.owner rs).map fun p => (p.1 + 1, r :: p.2)

/-- `acquire_hazard_ptr_record`: re-entrant scan first, then the CAS
loop with its single `empty_tid` comparand initialised to the default
thread id; `none` models the `std::terminate()` fall-through. -/
def acquire_hazard_ptr_record (tid : Nat) (recs : List Hazard_Ptr_Record) :
    Option (Nat × List Hazard_Ptr_Record) :=
  match findOwnedIdx tid recs with
  | some i => some (i, recs)
  | none => claimScanCAS tid none recs

/-- `Hazard_Ptr_Owner::get()`: `nullptr` when `_hazard_ptr_record` is
null (moved-from owner), else the record's protected pointer.  The
owner's `_hazard_ptr_record` is modelled as an optional index into the
registry. -/
def hazardGet (recs : List Hazard_Ptr_Record) (owner : Option Nat) :
    Option Nat :=
  match owner with
  | none => none
  | some i => (recs.getD i default).ptr

/-- `Hazard_Ptr_Owner::protect(ptr)`: release-store `ptr` into the
associated record. -/
def hazardProtect (recs : List Hazard_Ptr_Record) (i : Nat) (p : Nat) :
    List Hazard_Ptr_Record :=
  recs.set i ⟨(recs.getD i default).owner, some p⟩

/-- `Hazard_Ptr_Owner::clear()`: release-store `nullptr` into the
associated record. -/
def hazardClear (recs : List Hazard_Ptr_Record) (i : Nat) :
    List Hazard_Ptr_Record :=
  recs.set i ⟨(recs.getD i default).owner, none⟩

/-- Move construction / move assignment of `Hazard_Ptr_Owner`: the
destination takes the record handle, the source's handle becomes
null. -/
def hazardMove (owner : Option Nat) : Option Nat × Option Nat :=
  (owner, none)

/-- `get_ptrs_protected_by_hazard_ptrs`: the non-null pointers of all
records whose owner is not the default thread id. -/
def getProtectedPtrs (recs : List Hazard_Ptr_Record) : List Nat :=
  recs.filterMap fun r => if r.owner ≠ none then r.ptr else none

/-- `Memory_Reclaimer`: `{void* _ptr; void* _context;
void(*_deleter)(void*,void*);}`, all value-initialised by default
(`context`/`deleter` `none` = null). Deleters are modelled as opaque
function-pointer identifiers. -/
structure Memory_Reclaimer where
  ptr : Nat
  context : Option Nat
  deleter : Option Nat
deriving DecidableEq

/-- The entry `reclaim_memory_later` appends, exactly as written:
`MEMORY_RECLAIMERS.push_back(Memory_Reclaimer{ptr, deleter});` braces
initialise the members in declaration order, so `ptr` lands in `_ptr`,
the function pointer `deleter` lands in the second member `_context`,
and `_deleter` stays value-initialised (null); the `context` argument
of the function is dropped. -/
def mkReclaimerAsWritten (ptr : Nat) (deleter : Nat) : Memory_Reclaimer :=
  { ptr := ptr, context := some deleter, deleter := none }

/-- One invocation `_deleter(_ptr, _context)` performed by
`try_reclaim_memory`. -/
structure DeleterCall where
  deleter : Option Nat
  ptr : Nat
  context : Option Nat
deriving DecidableEq

/-- `try_reclaim_memory`: for each retired entry whose pointer is not
protected by any hazard record, invoke its stored deleter and drop it;
keep the protected entries.  The list of performed deleter invocations
is returned alongside the surviving entries. -/
def try_reclaim_memory (protectedPtrs : List Nat) :
    List Memory_Reclaimer → List Memory_Reclaimer × List DeleterCall
  | [] => ([], [])
  | m :: ms =>
    let rest := try_reclaim_memory protectedPtrs ms
    if m.ptr ∈ protectedPtrs then (m :: rest.1, rest.2)
    else (rest.1, ⟨m.deleter, m.ptr, m.context⟩ :: rest.2)

/-- `reclaim_memory_later(ptr, context, deleter)`: append the
as-written entry to the thread-local retired list and run
`try_reclaim_memory` once the list size reaches
`RECLAIM_THRESHOLD = HAZARD_PTR_RECORD_COUNT / 2`. -/
def reclaim_memory_later (recordCount : Nat)
    (recs : List Hazard_Ptr_Record) (ptr : Nat) (context : Option Nat)
    (deleter : Nat) (reclaimers : List Memory_Reclaimer) :
    List Memory_Reclaimer × List DeleterCall :=
  let rs := reclaimers ++ [mkReclaimerAsWritten ptr deleter]
  if recordCount / 2 ≤ rs.length then
    try_reclaim_memory (getProtectedPtrs recs) rs
  else (rs, [])

/-! ## Blocking linked queue with stop
(`src/Concurrent_Queue_Blocking.hpp`, spec section 4.5)

The file under `src/` contains the mutex/condition-variable queue but
no termination flag and no `stop()`, although its in-repository caller
`Thread_Pool__Blocking_Queue.hpp` invokes `_jobs.stop()` during
`shutdown()`.  The stop machinery is therefore modelled from the
spec. -/

structure BQState (T : Type) where
  items : List T
  stopped : Bool
deriving DecidableEq

namespace BQState

variable {T : Type}

def bqInit (T : Type) : BQState T := ⟨[], false⟩

/-- `push`: lock, append to the `std::queue`, notify one waiter. -/
def bqPush (v : T) (s : BQState T) : BQState T :=
  { s with items := s.items ++ [v] }

/-- Modelled from the spec: `stop` sets the flag and notifies all
waiters (the `stop()` member is missing from
`Concurrent_Queue_Blocking.hpp`; only its caller exists in the
repository). -/
def bqStop (s : BQState T) : BQState T := { s with stopped := true }

/-- Modelled from the spec: `pop` waits until non-empty or
stop-flag-set; returns the front element if one exists, `none` if the
queue is drained and stopped.  The outer `none` means the wait never
ends (the call blocks and does not complete). -/
def bqPopComplete? (s : BQState T) : Option (Option T × BQState T) :=
  match s.items with
  | v :: rest => some (some v, { s with items := rest })
  | [] => if s.stopped then some (none, s) else none

/-- Run `n` completed `pop()` calls, collecting the returned values;
stops early if a `pop` would block. -/
def bqPopSeq : Nat → BQState T → List (Option T) × BQState T
  | 0, s => ([], s)
  | n + 1, s =>
    match s.bqPopComplete? with
    | none => ([], s)
    | some (r, s') =>
      let rest := bqPopSeq n s'
      (r :: rest.1, rest.2)

end BQState

/-! ## Claims C2, C3, C9: evaluations of the code at failing inputs -/

/-- Claim C2 evaluated at the failing input: `pop()` of the
hazard-protected linked MPMC stack on a stack holding the single value
42 unlinks and retires the head node but returns `nullopt`, because
the inner `std::optional<T> data{std::move(old_head->_data)}` declared
inside `if (old_head)` shadows the outer `data` that the function
returns.  The claim expects `Some 42`. -/
theorem claim_C2_linked_pop_eval :
    (LinkedStack.lpopAsWritten (⟨[42], []⟩ : LinkedStack Nat)).1 = none ∧
    (LinkedStack.lpopAsWritten (⟨[42], []⟩ : LinkedStack Nat)).2 =
      ⟨[], [42]⟩ := by
  exact ⟨rfl, rfl⟩

open SState in
/-- Claim C3 evaluated at the failing input: on the ring ticket MPMC
stack of capacity 2 holding two pushed values (`_top = 2`), a failed
`try_push` returns `false` but leaves `_top = 3` (the fetch-add is not
undone), and a failed `try_pop` returns `nullopt` and also leaves
`_top = 3`.  The claim (and the spec's rationale) requires the
counters to be unchanged on failure. -/
theorem claim_C3_stack_try_ops_eval :
    (sinit Nat (2 ^ 1)).spushGuard ∧
    ((sinit Nat (2 ^ 1)).spushApply 1).spushGuard ∧
    (((sinit Nat (2 ^ 1)).spushApply 1).spushApply 2).top = 2 ∧
    ((((sinit Nat (2 ^ 1)).spushApply 1).spushApply 2).stryPush 3).1 =
      false ∧
    ((((sinit Nat (2 ^ 1)).spushApply 1).spushApply 2).stryPush 3).2.top =
      3 ∧
    (((sinit Nat (2 ^ 1)).spushApply 1).spushApply 2).stryPop.1 = none ∧
    (((sinit Nat (2 ^ 1)).spushApply 1).spushApply 2).stryPop.2.top = 3 := by
  decide

open SpscState in
/-- Claim C9 evaluated at the failing input: on the SPSC ring queue of
capacity 2 after one completed push (`_head = 0`, `_tail = 1`,
non-empty), `empty()` as written (`return _head = _tail;`) returns
`true` and assigns `_head := _tail`, both against the claim; the
spec-described comparison `_head == _tail` returns `false`. -/
theorem claim_C9_spsc_empty_eval :
    (spscInit Nat (2 ^ 1)).spscPushGuard ∧
    ((spscInit Nat (2 ^ 1)).spscPushApply 5).head ≠
      ((spscInit Nat (2 ^ 1)).spscPushApply 5).tail ∧
    ((spscInit Nat (2 ^ 1)).spscPushApply 5).spscEmptyAsWritten.1 = true ∧
    ((spscInit Nat (2 ^ 1)).spscPushApply 5).spscEmptyAsWritten.2.head = 1 ∧
    ((spscInit Nat (2 ^ 1)).spscPushApply 5).spscEmptyAsWritten.2 ≠
      (spscInit Nat (2 ^ 1)).spscPushApply 5 ∧
    ((spscInit Nat (2 ^ 1)).spscPushApply 5).spscEmptySpec = false := by
  decide

/-! ## Claim C7 -/

open QState in
/-- On any reachable queue state where the blocking `pop` can
complete, the reserved slot is FULL and holds the value pushed with
the matching producer ticket; in particular the popped storage is
live. -/
theorem qpop_reserved_isSome {T : Type} {s : QState T} (hInv : s.QInv)
    (hg : s.qpopGuard) : (s.dataAt (s.slotIdx s.head)).isSome := by
  obtain ⟨hcap, hht, hlen, hpop, hslots⟩ := hInv
  have hi0lt : s.head % s.qcap < s.qcap := Nat.mod_lt _ hcap
  have hK : countTick s.qcap s.head (s.head % s.qcap) = s.head / s.qcap :=
    countTick_self s.qcap s.head hcap
  have hcEq : s.head = s.head % s.qcap + s.head / s.qcap * s.qcap := by
    have h1 := Nat.div_add_mod s.head s.qcap
    have h2 : s.qcap * (s.head / s.qcap) = s.head / s.qcap * s.qcap :=
      Nat.mul_comm _ _
    omega
  have hguard : s.expAt (s.head % s.qcap) = s.head + 1 := hg
  have hcnt_hd : ∀ i, countTick s.qcap (s.head + 1) i =
      countTick s.qcap s.head i +
        (if s.head % s.qcap = i then 1 else 0) := fun i =>
    countTick_succ s.qcap s.head i
  have hfull : countTick s.qcap s.tail (s.head % s.qcap) =
      s.head / s.qcap + 1 := by
    rcases hslots _ hi0lt with hclean | hover
    · obtain ⟨hle, hexp, hdata⟩ := hclean
      rw [hguard, hK] at hexp
      by_cases hb : countTick s.qcap s.tail (s.head % s.qcap) =
          s.head / s.qcap + 1
      · exact hb
      · rw [if_neg hb] at hexp
        omega
    · obtain ⟨hcap1, hge, hexpov⟩ := hover
      rw [hguard] at hexpov
      rw [← hexpov, hcnt_hd, if_pos rfl] at hge
      omega
  have hdata0 : s.dataAt (s.head % s.qcap) = s.pushedL[s.head]? := by
    rcases hslots _ hi0lt with hclean | hover
    · obtain ⟨hle, hexp, hdata⟩ := hclean
      rw [hK] at hdata
      have := hdata hfull
      rw [this]
      congr 1
      omega
    · obtain ⟨hcap1, hge, hexpov⟩ := hover
      rw [hguard] at hexpov
      rw [← hexpov, hcnt_hd, if_pos rfl] at hge
      omega
  have hlt_tail : s.head < s.tail := by
    have := (countTick_ge_iff s.qcap (s.head % s.qcap) hi0lt s.tail
      (s.head / s.qcap)).mp (by omega)
    omega
  rw [show s.slotIdx s.head = s.head % s.qcap from rfl, hdata0,
    List.getElem?_eq_getElem (by omega)]
  rfl

open QState SState in
/-- Claim C7 counterexample: a completed `pop()` of a lock-free
container of the core returning `None`.  The ring ticket MPMC stack's
`pop()` on a fresh (empty) stack observes `_top == 0` and completes
immediately with `nullopt`, contradicting the claim that `None` is
returned only by the terminated blocking queue. -/
theorem claim_C7_counterexample :
    (sinit Nat (2 ^ 1)).spopComplete? =
      some (none, sinit Nat (2 ^ 1)) := by
  decide

open QState SState in
/-- Claim C7 (amended): a completed blocking `pop()` of the ring
ticket MPMC *queue* always returns a value (on an empty queue it
back-pressures instead of completing); the lock-free ring ticket
stack's `pop()`, however, completes with `None` whenever it observes
`top = 0`. -/
theorem claim_C7_queue_pop_some (T : Type) :
    (∀ (s : QState T) (r : Option T) (s' : QState T),
      QReach s → s.qpopComplete? = some (r, s') → r.isSome) ∧
    (∀ s : SState T, s.top = 0 → s.spopComplete? = some (none, s)) := by
  constructor
  · intro s r s' hreach hres
    unfold qpopComplete? at hres
    split at hres
    · have hg : s.qpopGuard := by assumption
      have := qpop_reserved_isSome (qreach_inv hreach) hg
      cases hres
      exact this
    · cases hres
  · intro s h
    unfold SState.spopComplete?
    rw [if_pos h]

open QState SState in
/-- Witness for the amended claim C7: a concrete completed queue pop
returning `Some 5`, and the concrete empty-stack pop completing with
`None`. -/
theorem claim_C7_witness :
    (some 5 : Option Nat).isSome ∧
    (sinit Nat (2 ^ 1)).spopComplete? = some (none, sinit Nat (2 ^ 1)) :=
  ⟨(claim_C7_queue_pop_some Nat).1 ((qinit Nat (2 ^ 1)).qpushApply 5)
      (some 5) ((qinit Nat (2 ^ 1)).qpushApply 5).qpopApply
      (QReach.push 5 (QReach.init 1) (by decide)) (by decide),
    (claim_C7_queue_pop_some Nat).2 (sinit Nat (2 ^ 1)) rfl⟩

/-! ## Claim C5 -/

/-- Claim C5 evaluated at the failing input
`reclaim_memory_later(ptr = 7, context = 3, deleter = 5)` with
registry size 2 (threshold 1) and no protected pointers: the appended
entry is `{_ptr = 7, _context = (void*)5, _deleter = nullptr}` — the
braced initialiser `Memory_Reclaimer{ptr, deleter}` puts the deleter
into `_context` and drops the `context` argument — so the
reclamation pass that runs at the threshold invokes the *null*
`_deleter` (not deleter 5) on pointer 7. -/
theorem claim_C5_reclaim_eval :
    mkReclaimerAsWritten 7 5 = ⟨7, some 5, none⟩ ∧
    (mkReclaimerAsWritten 7 5).deleter ≠ some 5 ∧
    reclaim_memory_later 2 [] 7 (some 3) 5 [] =
      ([], [⟨none, 7, some 5⟩]) := by
  decide

/-! ## Claim C6 -/

/-- Claim C6 evaluated: the re-entrancy scan does return this thread's
record with the registry unchanged (first conjunct), but the claiming
scan does not claim an unowned record whenever one exists.  On the
registry `[owned-by-thread-2, unowned]`, thread 1's first CAS fails
and overwrites the loop's single `empty_tid` comparand with thread 2's
id, so the second CAS compares the unowned record's default owner
against thread 2's id, fails, and the function reaches
`std::terminate()` (second conjunct) — against the claim that it fails
fatally only when every record is owned by another thread.  Dually, on
`[owned-by-thread-2, owned-by-thread-2]` — every record owned by
another thread, where the claim demands fatal failure — the polluted
comparand makes the second CAS succeed and the scan steals thread 2's
record (third conjunct). -/
theorem claim_C6_acquire_eval :
    acquire_hazard_ptr_record 1 [⟨some 1, some 5⟩, ⟨none, none⟩] =
      some (0, [⟨some 1, some 5⟩, ⟨none, none⟩]) ∧
    acquire_hazard_ptr_record 1 [⟨some 2, none⟩, ⟨none, none⟩] = none ∧
    acquire_hazard_ptr_record 1 [⟨some 2, none⟩, ⟨some 2, none⟩] =
      some (1, [⟨some 2, none⟩, ⟨some 1, none⟩]) := by
  decide


/-! ## Claim C10 -/

/-- Claim C10: for a `Hazard_Ptr_Owner` holding a record, `get()`
returns `p` immediately after `protect(p)` and `nullptr` immediately
after `clear()`; for an owner whose record was transferred away by
move construction or move assignment, `get()` returns `nullptr`. -/
theorem claim_C10_owner_protocol (recs : List Hazard_Ptr_Record)
    (i p : Nat) (h : i < recs.length) :
    hazardGet (hazardProtect recs i p) (some i) = some p ∧
    hazardGet (hazardClear recs i) (some i) = none ∧
    (∀ o : Option Nat, hazardGet recs (hazardMove o).2 = none) := by
  refine ⟨?_, ?_, fun o => rfl⟩
  · show ((hazardProtect recs i p).getD i default).ptr = some p
    unfold hazardProtect
    rw [getD_set_self recs _ h]
  · show ((hazardClear recs i).getD i default).ptr = none
    unfold hazardClear
    rw [getD_set_self recs _ h]

/-- Witness for claim C10 on a concrete one-record registry. -/
theorem claim_C10_witness :
    hazardGet (hazardProtect [⟨some 1, some 9⟩] 0 4) (some 0) = some 4 ∧
    hazardGet (hazardClear [⟨some 1, some 9⟩] 0) (some 0) = none ∧
    (∀ o : Option Nat, hazardGet [⟨some 1, some 9⟩] (hazardMove o).2 =
      none) :=
  claim_C10_owner_protocol [⟨some 1, some 9⟩] 0 4 (by decide)

/-! ## Claim C4 -/

open BQState in
/-- Pushing a list of values one by one appends them to the store in
FIFO order. -/
theorem bq_push_foldl {T : Type} (l : List T) (s : BQState T) :
    l.foldl (fun a v => a.bqPush v) s = ⟨s.items ++ l, s.stopped⟩ := by
  induction l generalizing s with
  | nil => simp
  | cons v vs ih =>
    rw [List.foldl_cons, ih]
    simp [bqPush]

open BQState in
/-- Draining a stopped queue: the stored elements come out in FIFO
order, then `none`. -/
theorem bq_drain {T : Type} (l : List T) :
    bqPopSeq (l.length + 1) ⟨l, true⟩ =
      (l.map some ++ [none], ⟨[], true⟩) := by
  induction l with
  | nil => rfl
  | cons v vs ih =>
    have h1 : bqPopSeq ((v :: vs).length + 1) (⟨v :: vs, true⟩ : BQState T) =
        (some v :: (bqPopSeq (vs.length + 1) (⟨vs, true⟩ : BQState T)).1,
         (bqPopSeq (vs.length + 1) (⟨vs, true⟩ : BQState T)).2) := rfl
    rw [h1, ih]
    simp

open BQState in
/-- Claim C4: after a producer pushes the values of `l` and calls
`stop()`, consecutive completed `pop()` calls return the elements of
`l` in FIFO order and then — once the store is drained — `none`,
without blocking (each of the `length l + 1` calls completes). -/
theorem claim_C4_blocking_stop_drains (T : Type) (l : List T) :
    bqPopSeq (l.length + 1)
      (bqStop (l.foldl (fun a v => a.bqPush v) (bqInit T))) =
    (l.map some ++ [none], ⟨[], true⟩) := by
  rw [bq_push_foldl]
  exact bq_drain l

end LockFree
